import Mathlib

/-!
Verification of the attendance-extraction pipeline (processor.py, config.py).

Shallow embedding conventions:
* Timestamps are absolute seconds (`Nat`); `datetime.time()` is `tod`
  (seconds of day) and `datetime.date()` is `dateOf` (day number).
* `datetime.combine(d, t)` is `d * 86400 + t`.
* Pandas frames of bursts become `List Burst` in row order; the input to
  each stage is sorted by `(Name, burst_start)` as `_load_excel` guarantees.
* `strftime('%H:%M:%S')` formatting is abstracted away: a produced time
  string is modelled by `some ts` and the empty string `""` by `none`.
* Gap comparisons `(Δ).total_seconds()/60 >= min_gap` are modelled exactly
  over `Int` as `60 * min_gap ≤ Δseconds`.
-/

namespace Attend

/-- Seconds-of-day of a timestamp, i.e. Python `datetime.time()` read as
seconds (`time_to_seconds` in `_detect_breaks`). -/
def tod (ts : Nat) : Nat := ts % 86400

/-- Day number of a timestamp, i.e. Python `datetime.date()`. -/
def dateOf (ts : Nat) : Nat := ts / 86400

/-- Build a seconds-of-day value from hours, minutes, seconds. -/
def hms (h m s : Nat) : Nat := h * 3600 + m * 60 + s

/-- `ShiftConfig` from config.py restricted to the fields the pipeline
reads (times as seconds of day).  `shift_start`, `break_end_time` and
`display_name` are carried by the source dataclass but never used by the
algorithms verified here, so they are omitted. -/
structure ShiftConfig where
  name : String
  check_in_start : Nat
  check_in_end : Nat
  check_out_start : Nat
  check_out_end : Nat
  break_search_start : Nat
  break_search_end : Nat
  break_out_checkpoint : Nat
  midpoint : Nat
  minimum_break_gap_minutes : Nat
  check_in_on_time_cutoff : Nat
  check_in_late_threshold : Nat
  break_in_on_time_cutoff : Nat
  break_in_late_threshold : Nat
deriving Repr, DecidableEq

/-- `AttendanceProcessor._time_in_range` (processor.py:521): membership in a
possibly midnight-wrapping window, both bounds inclusive. -/
def timeInRange (start stop t : Nat) : Bool :=
  if start ≤ stop then decide (start ≤ t) && decide (t ≤ stop)
  else decide (t ≥ start) || decide (t ≤ stop)

/-- `ShiftConfig.is_in_check_in_range` (config.py:31): the same membership
test specialised to the check-in window. -/
def ShiftConfig.is_in_check_in_range (cfg : ShiftConfig) (t : Nat) : Bool :=
  if cfg.check_in_start ≤ cfg.check_in_end then
    decide (cfg.check_in_start ≤ t) && decide (t ≤ cfg.check_in_end)
  else
    decide (t ≥ cfg.check_in_start) || decide (t ≤ cfg.check_in_end)

/-- `ShiftConfig.determine_check_in_status` (config.py:39).  `none` models a
Python `None` argument. -/
def determine_check_in_status (cfg : ShiftConfig) (check_in_time : Option Nat) : String :=
  match check_in_time with
  | none => ""
  | some t =>
    if t ≤ cfg.check_in_on_time_cutoff then "On Time"
    else if t ≥ cfg.check_in_late_threshold then "Late"
    else ""

/-- `ShiftConfig.determine_break_in_status` (config.py:57). -/
def determine_break_in_status (cfg : ShiftConfig) (break_in_time : Option Nat) : String :=
  match break_in_time with
  | none => ""
  | some t =>
    if t ≤ cfg.break_in_on_time_cutoff then "On Time"
    else if t ≥ cfg.break_in_late_threshold then "Late"
    else ""

/-- One input swipe row after status/user filtering (`_filter_valid_users`):
a timestamp plus the mapped output identity columns. -/
structure Swipe where
  ts : Nat
  output_name : String
  output_id : String
deriving Repr, DecidableEq

/-- One consolidated burst row produced by `_detect_bursts`. -/
structure Burst where
  burst_start : Nat
  burst_end : Nat
  output_name : String
  output_id : String
deriving Repr, DecidableEq

instance : Inhabited Burst := ⟨⟨0, 0, "", ""⟩⟩

/-- The grouping step of `_detect_bursts` (processor.py:131-137) for one
person's rows: `new_burst = (diff > threshold) | diff.isna()` followed by
`cumsum` grouping splits the row list exactly at the positions where the
gap to the previous row exceeds the threshold (in seconds). -/
def splitAtGaps (thr : Int) : List Swipe → List (List Swipe)
  | [] => []
  | [s] => [[s]]
  | s :: s2 :: ss =>
    if thr < (s2.ts : Int) - s.ts then [s] :: splitAtGaps thr (s2 :: ss)
    else
      match splitAtGaps thr (s2 :: ss) with
      | r :: rs => (s :: r) :: rs
      | [] => [[s]]

/-- The aggregation step of `_detect_bursts` (processor.py:140-144):
per group `timestamp: [min, max]`, `output_name: first`, `output_id: first`. -/
def burstAgg : List Swipe → Burst
  | [] => default
  | s :: ss =>
    { burst_start := ss.foldl (fun m x => min m x.ts) s.ts
      burst_end := ss.foldl (fun m x => max m x.ts) s.ts
      output_name := s.output_name
      output_id := s.output_id }

/-- `AttendanceProcessor._detect_bursts` (processor.py:123) for one person's
chronological rows; the threshold is `burst_threshold_minutes`. -/
def detect_bursts (thrMinutes : Nat) (rows : List Swipe) : List Burst :=
  (splitAtGaps (60 * thrMinutes) rows).map burstAgg

/-- One shift instance produced by `_detect_shift_instances`: the shift
code, the shift date (day number) and the bursts assigned to this
`shift_instance_id`, in row order. -/
structure ShiftInstance where
  shift_code : String
  shift_date : Nat
  bursts : List Burst
deriving Repr, DecidableEq

/-- The check-in matcher of `_detect_shift_instances` (processor.py:191-195):
iterate the shift mapping in its fixed order, first shift whose check-in
window contains the swipe's time of day wins. -/
def matchShift (shifts : List (String × ShiftConfig)) (t : Nat) :
    Option (String × ShiftConfig) :=
  shifts.find? (fun p => p.2.is_in_check_in_range t)

/-- The activity-window end of `_detect_shift_instances` (processor.py:203-213):
`datetime.combine(shift_date (+ 1 day if code = 'C'), check_out_end)`. -/
def windowEnd (code : String) (cfg : ShiftConfig) (shiftDate : Nat) : Nat :=
  if code = "C" then (shiftDate + 1) * 86400 + cfg.check_out_end
  else shiftDate * 86400 + cfg.check_out_end

/-- The competing-check-in test of `_detect_shift_instances`
(processor.py:236-240): does the time of day start a different shift? -/
def startsDifferentShift (shifts : List (String × ShiftConfig)) (code : String)
    (t : Nat) : Bool :=
  shifts.any (fun p => p.1 ≠ code && p.2.is_in_check_in_range t)

/-- The inner absorption loop of `_detect_shift_instances`
(processor.py:219-253) for the bursts strictly after the opening one
(`j > i`): returns (absorbed bursts, remaining bursts). -/
def absorbRest (shifts : List (String × ShiftConfig)) (code : String)
    (cfg : ShiftConfig) (wend : Nat) : List Burst → List Burst × List Burst
  | [] => ([], [])
  | b :: bs =>
    if b.burst_start ≤ wend then
      let inCheckout := timeInRange cfg.check_out_start cfg.check_out_end (tod b.burst_start)
      if !inCheckout && startsDifferentShift shifts code (tod b.burst_start) then
        ([], b :: bs)
      else
        let p := absorbRest shifts code cfg wend bs
        (b :: p.1, p.2)
    else ([], b :: bs)

/-- The first iteration (`j = i`) of the absorption loop together with the
rest: the opening burst is subject to the `curr_swipe <= window_end` test
(processor.py:224) but never to the different-shift test, which requires
`j > i` (processor.py:236). -/
def openAbsorb (shifts : List (String × ShiftConfig)) (code : String)
    (cfg : ShiftConfig) (wend : Nat) (b : Burst) (bs : List Burst) :
    List Burst × List Burst :=
  if b.burst_start ≤ wend then
    let p := absorbRest shifts code cfg wend bs
    (b :: p.1, p.2)
  else ([], b :: bs)

/-- The per-person outer loop of `_detect_shift_instances`
(processor.py:184-259), fuel-indexed: Python's `while i < len(user_df)`
has no built-in bound, and when an opening burst fails the window test the
loop repeats with `i = j = i` forever; `none` models that divergence.
Returns (instances in emission order, orphan bursts in row order). -/
def segmentLoop (shifts : List (String × ShiftConfig)) :
    Nat → List Burst → Option (List ShiftInstance × List Burst)
  | _, [] => some ([], [])
  | 0, _ :: _ => none
  | Nat.succ fuel, b :: bs =>
    match matchShift shifts (tod b.burst_start) with
    | none =>
      match segmentLoop shifts fuel bs with
      | none => none
      | some (insts, orphans) => some (insts, b :: orphans)
    | some (code, cfg) =>
      let sd := dateOf b.burst_start
      let wend := windowEnd code cfg sd
      let p := openAbsorb shifts code cfg wend b bs
      match p.1 with
      | [] => segmentLoop shifts fuel p.2
      | _ :: _ =>
        match segmentLoop shifts fuel p.2 with
        | none => none
        | some (insts, orphans) => some (⟨code, sd, p.1⟩ :: insts, orphans)

/-- A burst that, if it opens an instance, passes the activity-window test
(so the outer loop makes progress on it).  Every burst matching no shift is
trivially safe. -/
def safeBurst (shifts : List (String × ShiftConfig)) (b : Burst) : Bool :=
  match matchShift shifts (tod b.burst_start) with
  | none => true
  | some (code, cfg) => b.burst_start ≤ windowEnd code cfg (dateOf b.burst_start)

/-- The absorption predicate governing bursts after the opening one:
inside the activity window, and not the start of a different shift unless
covered by the current shift's check-out window. -/
def absorbPred (shifts : List (String × ShiftConfig)) (code : String)
    (cfg : ShiftConfig) (wend : Nat) (b : Burst) : Bool :=
  b.burst_start ≤ wend &&
    (timeInRange cfg.check_out_start cfg.check_out_end (tod b.burst_start) ||
      !startsDifferentShift shifts code (tod b.burst_start))

/-- The candidate pool of `_detect_breaks` (processor.py:375-384): bursts
whose start or end time of day lies in the break-search window.  The group
rows arrive sorted by `burst_start`, so the source's stable re-sort leaves
the filtered rows in place. -/
def breakCands (cfg : ShiftConfig) (group : List Burst) : List Burst :=
  group.filter (fun b =>
    timeInRange cfg.break_search_start cfg.break_search_end (tod b.burst_start) ||
    timeInRange cfg.break_search_start cfg.break_search_end (tod b.burst_end))

/-- The qualifying-gap test of `_detect_breaks` (processor.py:393-399):
`gap_minutes = (next_burst_start - burst_end)/60 >= min_gap`, stated
exactly over `Int`.  Row `k` is compared with row `k+1`. -/
def gapQualifies (minGap : Nat) (cs : List Burst) (k : Nat) : Bool :=
  (60 * minGap : Int) ≤ ((cs.getD (k + 1) default).burst_start : Int) -
    ((cs.getD k default).burst_end : Int)

/-- Indices of qualifying gaps in ascending row order
(`qualifying_gaps.index`); the last row never qualifies (`shift(-1)` NaN). -/
def qualIndices (minGap : Nat) (cs : List Burst) : List Nat :=
  (List.range (cs.length - 1)).filter (fun k => gapQualifies minGap cs k)

/-- The source's selection loops (processor.py:413-444):
`best = None; min_d = inf; for idx: if d < min_d: best = idx` — i.e. the
first element of the list attaining the minimum of `f`. -/
def argminFirst (f : Nat → Int) : List Nat → Option Nat
  | [] => none
  | i :: is => some (is.foldl (fun best j => if f j < f best then j else best) i)

/-- Distance (seconds of day) from row `k`'s burst end to the Break-Out
checkpoint (processor.py:417-423). -/
def distToCheckpoint (cfg : ShiftConfig) (cs : List Burst) (k : Nat) : Int :=
  |((tod (cs.getD k default).burst_end : Int) - (cfg.break_out_checkpoint : Int))|

/-- Distance (seconds of day) from row `k+1`'s burst start to the Break-In
on-time cutoff (processor.py:434-440). -/
def distToCutoff (cfg : ShiftConfig) (cs : List Burst) (k : Nat) : Int :=
  |((tod (cs.getD (k + 1) default).burst_start : Int) - (cfg.break_in_on_time_cutoff : Int))|

/-- Maximum `burst_end` of a list of rows (`['burst_end'].max()`); all
timestamps are nonnegative so folding from 0 is exact on nonempty input. -/
def maxEnd (l : List Burst) : Nat :=
  l.foldl (fun m b => max m b.burst_end) 0

/-- Minimum `burst_start` of a nonempty list of rows (`['burst_start'].min()`). -/
def minStart : List Burst → Nat
  | [] => 0
  | b :: bs => bs.foldl (fun m x => min m x.burst_start) b.burst_start

/-- The single-sided internal gap search of `_detect_breaks`
(processor.py:472-488 and 497-512): first row index whose gap to the next
row qualifies (`gap_found.index[0]`). -/
def firstQualGap (minGap : Nat) (l : List Burst) : Option Nat :=
  (List.range (l.length - 1)).find? (fun k => gapQualifies minGap l k)

/-- The before-or-at-midpoint side of the tier-2 fallback
(processor.py:458): rows whose burst-end time of day is ≤ the midpoint. -/
def beforeMid (cfg : ShiftConfig) (cs : List Burst) : List Burst :=
  cs.filter (fun b => tod b.burst_end ≤ cfg.midpoint)

/-- The strictly-after-midpoint side of the tier-2 fallback
(processor.py:459): rows whose burst-start time of day is > the midpoint. -/
def afterMid (cfg : ShiftConfig) (cs : List Burst) : List Burst :=
  cs.filter (fun b => cfg.midpoint < tod b.burst_start)

/-- Tiers 2 and 3 of `_detect_breaks` (processor.py:457-519): midpoint
fallback plus the single-sided cases.  Result components are
(Break Time Out timestamp, Break Time In timestamp, break_in time of day),
with `none` standing for the empty string / Python `None`. -/
def breakFallback (cfg : ShiftConfig) (cs : List Burst) :
    Option Nat × Option Nat × Option Nat :=
  let before := beforeMid cfg cs
  let after := afterMid cfg cs
  if !before.isEmpty && !after.isEmpty then
    (some (maxEnd before), some (minStart after), some (tod (minStart after)))
  else if !before.isEmpty then
    match firstQualGap cfg.minimum_break_gap_minutes before with
    | some k =>
      (some (before.getD k default).burst_end,
       some (before.getD (k + 1) default).burst_start,
       some (tod (before.getD (k + 1) default).burst_start))
    | none => (some (maxEnd before), none, none)
  else if !after.isEmpty then
    match firstQualGap cfg.minimum_break_gap_minutes after with
    | some k =>
      (some (after.getD k default).burst_end,
       some (after.getD (k + 1) default).burst_start,
       some (tod (after.getD (k + 1) default).burst_start))
    | none => (none, some (minStart after), some (tod (minStart after)))
  else (none, none, none)

/-- `AttendanceProcessor._detect_breaks` (processor.py:353): tier-1
independent gap selection, falling back to the midpoint logic when no gap
qualifies.  When the qualifying set is nonempty both selection loops
return an index, mirroring `best_out_gap is not None and best_in_gap is
not None`. -/
def detect_breaks (cfg : ShiftConfig) (group : List Burst) :
    Option Nat × Option Nat × Option Nat :=
  let cs := breakCands cfg group
  if cs.isEmpty then (none, none, none)
  else
    let qual := qualIndices cfg.minimum_break_gap_minutes cs
    match argminFirst (distToCheckpoint cfg cs) qual,
          argminFirst (distToCutoff cfg cs) qual with
    | some bestOut, some bestIn =>
      let outTs := (cs.getD bestOut default).burst_end
      let inTs := (cs.getD (bestIn + 1) default).burst_start
      (some outTs, some inTs, some (tod inTs))
    | _, _ => breakFallback cfg cs

/-- `AttendanceProcessor._find_check_in` (processor.py:321): minimum
`burst_start` among bursts whose start time of day is in the check-in
window. -/
def find_check_in (cfg : ShiftConfig) (group : List Burst) : Option Nat :=
  let cands := group.filter (fun b =>
    timeInRange cfg.check_in_start cfg.check_in_end (tod b.burst_start))
  if cands.isEmpty then none else some (minStart cands)

/-- `AttendanceProcessor._find_check_out` (processor.py:339): maximum
`burst_end` among bursts whose end time of day is in the check-out window. -/
def find_check_out (cfg : ShiftConfig) (group : List Burst) : Option Nat :=
  let cands := group.filter (fun b =>
    timeInRange cfg.check_out_start cfg.check_out_end (tod b.burst_end))
  if cands.isEmpty then none else some (maxEnd cands)

/-- One output row of `_extract_attendance_events` (processor.py:306-317).
Time strings are modelled as `Option Nat` timestamps. -/
structure AttendanceRecord where
  date : Nat
  output_id : String
  output_name : String
  shift_code : String
  check_in : Option Nat
  check_in_status : String
  break_out : Option Nat
  break_in : Option Nat
  break_in_status : String
  check_out : Option Nat
deriving Repr, DecidableEq

/-- The per-instance body of `_extract_attendance_events`
(processor.py:285-317): `Date` is the stored `shift_date`, the identity
columns come from the group's first row, and the status guards
`... if check_in_time else ""` are the `Option.none` cases. -/
def extractRecord (cfg : ShiftConfig) (inst : ShiftInstance) : AttendanceRecord :=
  let ci := find_check_in cfg inst.bursts
  let co := find_check_out cfg inst.bursts
  let br := detect_breaks cfg inst.bursts
  { date := inst.shift_date
    output_id := (inst.bursts.headD default).output_id
    output_name := (inst.bursts.headD default).output_name
    shift_code := inst.shift_code
    check_in := ci
    check_in_status :=
      match ci with
      | none => ""
      | some t => determine_check_in_status cfg (some (tod t))
    break_out := br.1
    break_in := br.2.1
    break_in_status :=
      match br.2.2 with
      | none => ""
      | some t => determine_break_in_status cfg (some t)
    check_out := co }

/-- Modelled from the spec: the selection policy for the tie-break anchors.
`IsFirstMin f l i` says `i` is the first element of `l` attaining the
minimum of `f`: every earlier element is strictly farther, every later one
at least as far. -/
def IsFirstMin (f : Nat → Int) (l : List Nat) (i : Nat) : Prop :=
  ∃ l₁ l₂, l = l₁ ++ i :: l₂ ∧ (∀ j ∈ l₁, f i < f j) ∧ (∀ j ∈ l₂, f i ≤ f j)

/-- All bursts assigned to some instance, in emission order. -/
def instanceBursts (insts : List ShiftInstance) : List Burst :=
  insts.foldr (fun i acc => i.bursts ++ acc) []

/-- Chronological order of burst rows (the sort applied at
processor.py:171 and re-applied inside `_detect_breaks`). -/
def sortedByStart : List Burst → Bool
  | [] => true
  | [_] => true
  | x :: y :: t => decide (x.burst_start ≤ y.burst_start) && sortedByStart (y :: t)

/-- A concrete morning-shift configuration (windows as in the repository's
scenario tests: check-in 05:30-06:35, check-out 13:30-14:35, break search
09:30-10:40, checkpoint 10:00, midpoint 10:15, cutoff 10:34:59). -/
def shiftA : ShiftConfig :=
  { name := "A", check_in_start := hms 5 30 0, check_in_end := hms 6 35 0
    check_out_start := hms 13 30 0, check_out_end := hms 14 35 0
    break_search_start := hms 9 30 0, break_search_end := hms 10 40 0
    break_out_checkpoint := hms 10 0 0, midpoint := hms 10 15 0
    minimum_break_gap_minutes := 2
    check_in_on_time_cutoff := hms 6 4 59, check_in_late_threshold := hms 6 5 0
    break_in_on_time_cutoff := hms 10 34 59, break_in_late_threshold := hms 10 35 0 }

/-- A concrete afternoon-shift configuration (check-in 13:30-14:35,
check-out 21:30-22:35). -/
def shiftB : ShiftConfig :=
  { name := "B", check_in_start := hms 13 30 0, check_in_end := hms 14 35 0
    check_out_start := hms 21 30 0, check_out_end := hms 22 35 0
    break_search_start := hms 17 30 0, break_search_end := hms 18 40 0
    break_out_checkpoint := hms 18 0 0, midpoint := hms 18 15 0
    minimum_break_gap_minutes := 2
    check_in_on_time_cutoff := hms 14 4 59, check_in_late_threshold := hms 14 5 0
    break_in_on_time_cutoff := hms 18 34 59, break_in_late_threshold := hms 18 35 0 }

/-- A concrete night-shift configuration (check-in 21:30-22:35, check-out
window 05:30-06:35 on the following day). -/
def shiftC : ShiftConfig :=
  { name := "C", check_in_start := hms 21 30 0, check_in_end := hms 22 35 0
    check_out_start := hms 5 30 0, check_out_end := hms 6 35 0
    break_search_start := hms 1 30 0, break_search_end := hms 2 40 0
    break_out_checkpoint := hms 2 0 0, midpoint := hms 2 15 0
    minimum_break_gap_minutes := 2
    check_in_on_time_cutoff := hms 22 4 59, check_in_late_threshold := hms 22 5 0
    break_in_on_time_cutoff := hms 2 34 59, break_in_late_threshold := hms 2 35 0 }

/-- The three-shift mapping in its fixed iteration order A, B, C. -/
def demoShifts : List (String × ShiftConfig) := [("A", shiftA), ("B", shiftB), ("C", shiftC)]

/-- A configuration whose check-in window (15:00-16:00) lies after its
check-out end (14:35) on the same day: syntactically well-formed input for
`_detect_shift_instances`, nothing in the code rejects it. -/
def badShift : ShiftConfig :=
  { name := "A", check_in_start := hms 15 0 0, check_in_end := hms 16 0 0
    check_out_start := hms 13 0 0, check_out_end := hms 14 35 0
    break_search_start := hms 9 30 0, break_search_end := hms 10 40 0
    break_out_checkpoint := hms 10 0 0, midpoint := hms 10 15 0
    minimum_break_gap_minutes := 2
    check_in_on_time_cutoff := hms 6 4 59, check_in_late_threshold := hms 6 5 0
    break_in_on_time_cutoff := hms 10 34 59, break_in_late_threshold := hms 10 35 0 }

/-- An instantaneous burst at timestamp `t` for the demo person. -/
def demoBurst (t : Nat) : Burst := ⟨t, t, "Silver", "1"⟩

/-- The gap-selection scenario group: bursts at 06:00, 09:55, 10:05,
10:15, 10:25, 14:00 on day 0. -/
def demoGroup : List Burst :=
  [demoBurst (hms 6 0 0), demoBurst (hms 9 55 0), demoBurst (hms 10 5 0),
   demoBurst (hms 10 15 0), demoBurst (hms 10 25 0), demoBurst (hms 14 0 0)]

/-- The night-shift scenario bursts: 21:55:28 on day 0, then 02:00:35,
02:44:51 and 06:03:14 on day 1. -/
def nightBursts : List Burst :=
  [demoBurst (hms 21 55 28), demoBurst (86400 + hms 2 0 35),
   demoBurst (86400 + hms 2 44 51), demoBurst (86400 + hms 6 3 14)]

/-- A multi-swipe burst lasting from 10:00 to 10:20, straddling shift A's
10:15 midpoint. -/
def straddleBurst : Burst := ⟨hms 10 0 0, hms 10 20 0, "Silver", "1"⟩

/-- Two bursts 10:13:00-10:14:30 and 10:16:00-10:17:00 whose 90-second
separation is below the 2-minute gap threshold and which straddle shift
A's 10:15 midpoint. -/
def fallbackGroup : List Burst :=
  [⟨hms 10 13 0, hms 10 14 30, "Silver", "1"⟩,
   ⟨hms 10 16 0, hms 10 17 0, "Silver", "1"⟩]

/-- A raw swipe row at timestamp `t` for the demo person. -/
def demoSwipe (t : Nat) : Swipe := ⟨t, "Silver", "1"⟩

/-! ## Theorems -/

/-- Claim C4: window membership is inclusive-normal for `start ≤ end`,
inclusive-wrapping (`t ≥ start` or `t ≤ end`) for `start > end`, the
config-side `is_in_check_in_range` agrees with the processor-side test,
and for the wrapping window 21:30-06:35 exactly the times ≥ 21:30 or
≤ 06:35 are members. -/
theorem time_in_range_membership (s e t : Nat) :
    (s ≤ e → (timeInRange s e t = true ↔ s ≤ t ∧ t ≤ e)) ∧
    (e < s → (timeInRange s e t = true ↔ s ≤ t ∨ t ≤ e)) ∧
    (∀ cfg : ShiftConfig, cfg.is_in_check_in_range t =
      timeInRange cfg.check_in_start cfg.check_in_end t) ∧
    (timeInRange (hms 21 30 0) (hms 6 35 0) t = true ↔
      hms 21 30 0 ≤ t ∨ t ≤ hms 6 35 0) := by
  refine ⟨fun h => ?_, fun h => ?_, fun cfg => rfl, ?_⟩
  · simp [timeInRange, h]
  · simp [timeInRange, Nat.not_le.mpr h, ge_iff_le]
  · have h : ¬ (hms 21 30 0 ≤ hms 6 35 0) := by decide
    simp [timeInRange, h, ge_iff_le]

/-- Witness for C4 at the wrapping window 21:30-06:35 and t = 22:00. -/
theorem time_in_range_membership_witness :
    hms 6 35 0 < hms 21 30 0 ∧
    (timeInRange (hms 21 30 0) (hms 6 35 0) (hms 22 0 0) = true ↔
      hms 21 30 0 ≤ hms 22 0 0 ∨ hms 22 0 0 ≤ hms 6 35 0) :=
  ⟨by decide,
   (time_in_range_membership (hms 21 30 0) (hms 6 35 0) (hms 22 0 0)).2.1 (by decide)⟩

/-- Claim C8: for both status functions, an absent time yields `""`,
`"On Time"` holds exactly when the time is at or before the on-time
cutoff, `"Late"` exactly when it is past the cutoff and at or beyond the
late threshold, and the status is blank exactly when the time falls
strictly between the two; both functions are total, so no input raises. -/
theorem lateness_status_rules (cfg : ShiftConfig) (t : Nat) :
    determine_check_in_status cfg none = "" ∧
    determine_break_in_status cfg none = "" ∧
    (determine_check_in_status cfg (some t) = "On Time" ↔
      t ≤ cfg.check_in_on_time_cutoff) ∧
    (determine_check_in_status cfg (some t) = "Late" ↔
      cfg.check_in_on_time_cutoff < t ∧ cfg.check_in_late_threshold ≤ t) ∧
    (determine_check_in_status cfg (some t) = "" ↔
      cfg.check_in_on_time_cutoff < t ∧ t < cfg.check_in_late_threshold) ∧
    (determine_break_in_status cfg (some t) = "On Time" ↔
      t ≤ cfg.break_in_on_time_cutoff) ∧
    (determine_break_in_status cfg (some t) = "Late" ↔
      cfg.break_in_on_time_cutoff < t ∧ cfg.break_in_late_threshold ≤ t) ∧
    (determine_break_in_status cfg (some t) = "" ↔
      cfg.break_in_on_time_cutoff < t ∧ t < cfg.break_in_late_threshold) := by
  simp only [determine_check_in_status, determine_break_in_status]
  refine ⟨trivial, trivial, ?_, ?_, ?_, ?_, ?_, ?_⟩ <;>
    · split_ifs with h1 h2 <;> simp_all

theorem absorbRest_eq (shifts : List (String × ShiftConfig)) (code : String)
    (cfg : ShiftConfig) (wend : Nat) (bs : List Burst) :
    absorbRest shifts code cfg wend bs =
      (bs.takeWhile (absorbPred shifts code cfg wend),
       bs.dropWhile (absorbPred shifts code cfg wend)) := by
  induction bs with
  | nil => rfl
  | cons b bs ih =>
    by_cases h1 : b.burst_start ≤ wend
    · cases hco : timeInRange cfg.check_out_start cfg.check_out_end (tod b.burst_start) <;>
        cases hds : startsDifferentShift shifts code (tod b.burst_start) <;>
          simp [absorbRest, absorbPred, List.takeWhile, List.dropWhile, h1, hco, hds, ih]
    · simp [absorbRest, absorbPred, List.takeWhile, List.dropWhile, h1]

/-- Claim C2 (amended): bursts after the opening one are absorbed exactly
while they start at or before `window_end` and do not start a different
shift's check-in window except when covered by the current shift's
check-out window; absorption stops at the first failure.  The opening
burst is exempt from the different-shift test but still subject to the
`window_end` test: it is absorbed iff its start is ≤ `window_end`. -/
theorem absorb_greedy_amended (shifts : List (String × ShiftConfig)) (code : String)
    (cfg : ShiftConfig) (wend : Nat) (b : Burst) (bs : List Burst) :
    absorbRest shifts code cfg wend bs =
      (bs.takeWhile (absorbPred shifts code cfg wend),
       bs.dropWhile (absorbPred shifts code cfg wend)) ∧
    openAbsorb shifts code cfg wend b bs =
      (if b.burst_start ≤ wend then
        (b :: bs.takeWhile (absorbPred shifts code cfg wend),
         bs.dropWhile (absorbPred shifts code cfg wend))
       else ([], b :: bs)) := by
  refine ⟨absorbRest_eq shifts code cfg wend bs, ?_⟩
  by_cases h : b.burst_start ≤ wend <;>
    simp [openAbsorb, h, absorbRest_eq shifts code cfg wend bs]

/-- Counterexample to claim C2 as stated: with a configuration whose
check-in window (15:00-16:00) lies after its same-day check-out end
(14:35), the burst at 15:30 opens an instance (its check-in matches) but
fails the `curr_swipe <= window_end` test, so the opening burst is NOT
absorbed — and the outer loop then never advances (`none` model of the
resulting infinite loop). -/
theorem opening_burst_window_cex :
    matchShift [("A", badShift)] (tod (hms 15 30 0)) = some ("A", badShift) ∧
    openAbsorb [("A", badShift)] "A" badShift
      (windowEnd "A" badShift (dateOf (hms 15 30 0))) (demoBurst (hms 15 30 0)) [] =
      ([], [demoBurst (hms 15 30 0)]) ∧
    segmentLoop [("A", badShift)] 5 [demoBurst (hms 15 30 0)] = none := by
  refine ⟨by decide, by decide, by decide⟩

/-- Counterexample to claim C6 as stated: for a person whose only burst
starts at 22:00, with shift B's check-out window 21:30-22:35 and shift C's
check-in window 21:30-22:35, the segmenter produces exactly one instance
assigned to shift C — not shift B as the claim asserts.  Check-out
priority applies only to bursts absorbed into an already-open instance;
a fresh scan position is matched against check-in windows alone. -/
theorem overlap_single_swipe_cex :
    segmentLoop demoShifts 1 [demoBurst (hms 22 0 0)] =
      some ([⟨"C", 0, [demoBurst (hms 22 0 0)]⟩], []) ∧
    ("C" : String) ≠ "B" := by
  refine ⟨by decide, by decide⟩

/-- Claim C6 (amended): for one person whose only burst starts at 22:00,
under the configuration with shift B check-out window 21:30-22:35 and
shift C check-in window 21:30-22:35, the segmenter produces exactly one
shift instance and assigns it to shift C, because 22:00 matches only C's
check-in window and no instance is open when the scan reaches the burst. -/
theorem overlap_single_swipe_amended :
    ∃ inst : ShiftInstance,
      segmentLoop demoShifts ([demoBurst (hms 22 0 0)].length)
        [demoBurst (hms 22 0 0)] = some ([inst], []) ∧
      inst.shift_code = "C" := by
  exact ⟨⟨"C", 0, [demoBurst (hms 22 0 0)]⟩, by decide, rfl⟩

theorem splitAtGaps_shape (thr : Int) : ∀ (ss : List Swipe) (s : Swipe),
    ∃ t rs, splitAtGaps thr (s :: ss) = (s :: t) :: rs := by
  intro ss
  induction ss with
  | nil => exact fun s => ⟨[], [], rfl⟩
  | cons y zs ih =>
    intro s
    obtain ⟨t, rs, h⟩ := ih y
    by_cases hgap : thr < (y.ts : Int) - s.ts
    · exact ⟨[], (y :: t) :: rs, by rw [splitAtGaps, if_pos hgap, h]⟩
    · exact ⟨y :: t, rs, by rw [splitAtGaps, if_neg hgap, h]⟩

theorem splitAtGaps_chain (thr : Int) : ∀ (ss : List Swipe) (s : Swipe),
    List.Chain' (fun x y : Swipe => (y.ts : Int) - x.ts ≤ thr) (s :: ss) →
    splitAtGaps thr (s :: ss) = [s :: ss] := by
  intro ss
  induction ss with
  | nil => intro s _; rfl
  | cons y zs ih =>
    intro s hch
    rw [List.chain'_cons] at hch
    have h1 : ¬ thr < (y.ts : Int) - s.ts := not_lt.mpr hch.1
    rw [splitAtGaps, if_neg h1, ih y hch.2]

theorem splitAtGaps_append (thr : Int) (v : List Swipe) :
    ∀ (u : List Swipe), u ≠ [] →
    (∀ x ∈ u.getLast?, ∀ y ∈ v.head?, thr < (y.ts : Int) - x.ts) →
    splitAtGaps thr (u ++ v) = splitAtGaps thr u ++ splitAtGaps thr v := by
  cases v with
  | nil => intro u _ _; simp [splitAtGaps]
  | cons y v2 =>
    intro u
    induction u with
    | nil => intro h; exact absurd rfl h
    | cons x u ih =>
      intro _ hb
      cases u with
      | nil =>
        have hgap : thr < (y.ts : Int) - x.ts := hb x (by simp) y (by simp)
        have e1 : splitAtGaps thr (x :: y :: v2) = [x] :: splitAtGaps thr (y :: v2) := by
          rw [splitAtGaps, if_pos hgap]
        show splitAtGaps thr (x :: y :: v2) = splitAtGaps thr [x] ++ splitAtGaps thr (y :: v2)
        rw [e1]
        rfl
      | cons x2 u3 =>
        have hb2 : ∀ a ∈ (x2 :: u3).getLast?, ∀ b ∈ (y :: v2).head?,
            thr < (b.ts : Int) - a.ts := by
          intro a ha b hbm
          refine hb a ?_ b hbm
          rwa [List.getLast?_cons_cons]
        have ihh := ih (by simp) hb2
        obtain ⟨t, rs, hshape⟩ := splitAtGaps_shape thr u3 x2
        have hshape2 : splitAtGaps thr (x2 :: (u3 ++ (y :: v2))) =
            (x2 :: t) :: (rs ++ splitAtGaps thr (y :: v2)) := by
          have e0 : (x2 :: u3) ++ (y :: v2) = x2 :: (u3 ++ (y :: v2)) := rfl
          rw [← e0, ihh, hshape]
          rfl
        by_cases hgap : thr < (x2.ts : Int) - x.ts
        · have e1 : splitAtGaps thr (x :: x2 :: (u3 ++ (y :: v2))) =
              [x] :: ((x2 :: t) :: (rs ++ splitAtGaps thr (y :: v2))) := by
            rw [splitAtGaps, if_pos hgap, hshape2]
          have e2 : splitAtGaps thr (x :: x2 :: u3) = [x] :: ((x2 :: t) :: rs) := by
            rw [splitAtGaps, if_pos hgap, hshape]
          show splitAtGaps thr (x :: x2 :: (u3 ++ (y :: v2))) =
            splitAtGaps thr (x :: x2 :: u3) ++ splitAtGaps thr (y :: v2)
          rw [e1, e2]
          rfl
        · have e1 : splitAtGaps thr (x :: x2 :: (u3 ++ (y :: v2))) =
              (x :: x2 :: t) :: (rs ++ splitAtGaps thr (y :: v2)) := by
            rw [splitAtGaps, if_neg hgap, hshape2]
          have e2 : splitAtGaps thr (x :: x2 :: u3) = (x :: x2 :: t) :: rs := by
            rw [splitAtGaps, if_neg hgap, hshape]
          show splitAtGaps thr (x :: x2 :: (u3 ++ (y :: v2))) =
            splitAtGaps thr (x :: x2 :: u3) ++ splitAtGaps thr (y :: v2)
          rw [e1, e2]
          rfl

theorem foldl_min_le_init (l : List Nat) (a : Nat) : l.foldl min a ≤ a := by
  induction l generalizing a with
  | nil => exact le_refl a
  | cons x l ih => exact le_trans (ih (min a x)) (by omega)

theorem foldl_min_le_mem (l : List Nat) (a : Nat) :
    ∀ x ∈ l, l.foldl min a ≤ x := by
  induction l generalizing a with
  | nil => intro x hx; cases hx
  | cons y l ih =>
    intro x hx
    rcases List.mem_cons.mp hx with h | h
    · subst h
      exact le_trans (foldl_min_le_init l (min a x)) (by omega)
    · exact ih (min a y) x h

theorem foldl_min_eq_or_mem (l : List Nat) (a : Nat) :
    l.foldl min a = a ∨ l.foldl min a ∈ l := by
  induction l generalizing a with
  | nil => exact Or.inl rfl
  | cons x l ih =>
    rcases ih (min a x) with h | h
    · rcases Nat.le_total a x with hax | hxa
      · left
        rw [List.foldl_cons, h]
        omega
      · right
        rw [List.foldl_cons, h]
        have hmx : min a x = x := by omega
        rw [hmx]
        exact List.mem_cons_self x l
    · exact Or.inr (List.mem_cons_of_mem x h)

theorem foldl_max_init_le (l : List Nat) (a : Nat) : a ≤ l.foldl max a := by
  induction l generalizing a with
  | nil => exact le_refl a
  | cons x l ih => exact le_trans (by omega : a ≤ max a x) (ih (max a x))

theorem foldl_max_mem_le (l : List Nat) (a : Nat) :
    ∀ x ∈ l, x ≤ l.foldl max a := by
  induction l generalizing a with
  | nil => intro x hx; cases hx
  | cons y l ih =>
    intro x hx
    rcases List.mem_cons.mp hx with h | h
    · subst h
      exact le_trans (by omega : x ≤ max a x) (foldl_max_init_le l (max a x))
    · exact ih (max a y) x h

theorem foldl_max_eq_or_mem (l : List Nat) (a : Nat) :
    l.foldl max a = a ∨ l.foldl max a ∈ l := by
  induction l generalizing a with
  | nil => exact Or.inl rfl
  | cons x l ih =>
    rcases ih (max a x) with h | h
    · rcases Nat.le_total a x with hax | hxa
      · right
        rw [List.foldl_cons, h]
        have hmx : max a x = x := by omega
        rw [hmx]
        exact List.mem_cons_self x l
      · left
        rw [List.foldl_cons, h]
        omega
    · exact Or.inr (List.mem_cons_of_mem x h)

theorem burstAgg_start_eq (s : Swipe) (ss : List Swipe) :
    (burstAgg (s :: ss)).burst_start = (ss.map Swipe.ts).foldl min s.ts := by
  simp [burstAgg, List.foldl_map]

theorem burstAgg_end_eq (s : Swipe) (ss : List Swipe) :
    (burstAgg (s :: ss)).burst_end = (ss.map Swipe.ts).foldl max s.ts := by
  simp [burstAgg, List.foldl_map]

/-- Claim C5: for a person's chronologically sorted swipes, every maximal
run `r` of consecutive swipes each spaced ≤ `burst_threshold` from its
predecessor (threshold-exceeding gaps on both sides) yields exactly one
burst in the consolidator's output, in place; that burst's `burst_start`
and `burst_end` are the minimum and maximum of the run's timestamps, and
the identity columns pass through from the run's first row. -/
theorem burst_maximal_run (thr : Nat) (a r b : List Swipe)
    (hsorted : List.Chain' (fun x y : Swipe => x.ts ≤ y.ts) (a ++ r ++ b))
    (hr : r ≠ [])
    (hchain : List.Chain' (fun x y : Swipe => (y.ts : Int) - x.ts ≤ 60 * (thr : Int)) r)
    (hleft : ∀ x ∈ a.getLast?, ∀ y ∈ r.head?, (60 * (thr : Int)) < (y.ts : Int) - x.ts)
    (hright : ∀ x ∈ r.getLast?, ∀ y ∈ b.head?, (60 * (thr : Int)) < (y.ts : Int) - x.ts) :
    detect_bursts thr (a ++ r ++ b) =
      detect_bursts thr a ++ burstAgg r :: detect_bursts thr b ∧
    (∀ s ∈ r, (burstAgg r).burst_start ≤ s.ts ∧ s.ts ≤ (burstAgg r).burst_end) ∧
    (burstAgg r).burst_start ∈ r.map Swipe.ts ∧
    (burstAgg r).burst_end ∈ r.map Swipe.ts ∧
    (∀ x ∈ r.head?, (burstAgg r).output_name = x.output_name ∧
      (burstAgg r).output_id = x.output_id) := by
  cases r with
  | nil => exact absurd rfl hr
  | cons r0 rt =>
  have hmid : splitAtGaps (60 * (thr : Int)) ((r0 :: rt) ++ b) =
      [r0 :: rt] ++ splitAtGaps (60 * (thr : Int)) b := by
    cases b with
    | nil =>
      rw [List.append_nil, splitAtGaps_chain (60 * (thr : Int)) rt r0 hchain]
      rfl
    | cons b0 bt =>
      rw [splitAtGaps_append (60 * (thr : Int)) (b0 :: bt) (r0 :: rt) (by simp) hright,
        splitAtGaps_chain (60 * (thr : Int)) rt r0 hchain]
  have hsplit : splitAtGaps (60 * (thr : Int)) (a ++ (r0 :: rt) ++ b) =
      splitAtGaps (60 * (thr : Int)) a ++ [r0 :: rt] ++
        splitAtGaps (60 * (thr : Int)) b := by
    cases a with
    | nil =>
      simpa using hmid
    | cons a0 at2 =>
      have hb : ∀ x ∈ (a0 :: at2).getLast?, ∀ y ∈ ((r0 :: rt) ++ b).head?,
          (60 * (thr : Int)) < (y.ts : Int) - x.ts := by
        intro x hx y hy
        exact hleft x hx y (by simpa using hy)
      rw [List.append_assoc,
        splitAtGaps_append (60 * (thr : Int)) ((r0 :: rt) ++ b) (a0 :: at2) (by simp) hb,
        hmid, ← List.append_assoc]
  refine ⟨?_, ?_, ?_, ?_, ?_⟩
  · show (splitAtGaps (60 * (thr : Int)) (a ++ (r0 :: rt) ++ b)).map burstAgg = _
    rw [hsplit]
    simp [detect_bursts]
  · intro s hs
    rcases List.mem_cons.mp hs with h | h
    · subst h
      constructor
      · rw [burstAgg_start_eq]
        exact foldl_min_le_init _ _
      · rw [burstAgg_end_eq]
        exact foldl_max_init_le _ _
    · constructor
      · rw [burstAgg_start_eq]
        exact foldl_min_le_mem _ _ s.ts (List.mem_map_of_mem Swipe.ts h)
      · rw [burstAgg_end_eq]
        exact foldl_max_mem_le _ _ s.ts (List.mem_map_of_mem Swipe.ts h)
  · rw [burstAgg_start_eq]
    rcases foldl_min_eq_or_mem (rt.map Swipe.ts) r0.ts with h | h
    · rw [h]
      exact List.mem_map_of_mem Swipe.ts (List.mem_cons_self r0 rt)
    · rw [List.map_cons]
      exact List.mem_cons_of_mem _ h
  · rw [burstAgg_end_eq]
    rcases foldl_max_eq_or_mem (rt.map Swipe.ts) r0.ts with h | h
    · rw [h]
      exact List.mem_map_of_mem Swipe.ts (List.mem_cons_self r0 rt)
    · rw [List.map_cons]
      exact List.mem_cons_of_mem _ h
  · intro x hx
    have hxr : r0 = x := by simpa using hx
    subst hxr
    exact ⟨rfl, rfl⟩

/-- Witness for C5: swipes at 06:00 and 14:00 around the run 10:00:00,
10:01:30 with a 2-minute threshold. -/
theorem burst_maximal_run_witness :
    List.Chain' (fun x y : Swipe => x.ts ≤ y.ts)
      ([demoSwipe 21600] ++ [demoSwipe 36000, demoSwipe 36090] ++ [demoSwipe 50400]) ∧
    ([demoSwipe 36000, demoSwipe 36090] : List Swipe) ≠ [] ∧
    List.Chain' (fun x y : Swipe => (y.ts : Int) - x.ts ≤ 60 * ((2 : Nat) : Int))
      [demoSwipe 36000, demoSwipe 36090] ∧
    (∀ x ∈ ([demoSwipe 21600] : List Swipe).getLast?,
      ∀ y ∈ ([demoSwipe 36000, demoSwipe 36090] : List Swipe).head?,
        (60 * ((2 : Nat) : Int)) < (y.ts : Int) - x.ts) ∧
    (∀ x ∈ ([demoSwipe 36000, demoSwipe 36090] : List Swipe).getLast?,
      ∀ y ∈ ([demoSwipe 50400] : List Swipe).head?,
        (60 * ((2 : Nat) : Int)) < (y.ts : Int) - x.ts) ∧
    (detect_bursts 2 ([demoSwipe 21600] ++ [demoSwipe 36000, demoSwipe 36090] ++ [demoSwipe 50400]) =
      detect_bursts 2 [demoSwipe 21600] ++
        burstAgg [demoSwipe 36000, demoSwipe 36090] :: detect_bursts 2 [demoSwipe 50400] ∧
    (∀ s ∈ ([demoSwipe 36000, demoSwipe 36090] : List Swipe),
      (burstAgg [demoSwipe 36000, demoSwipe 36090]).burst_start ≤ s.ts ∧
        s.ts ≤ (burstAgg [demoSwipe 36000, demoSwipe 36090]).burst_end) ∧
    (burstAgg [demoSwipe 36000, demoSwipe 36090]).burst_start ∈
      ([demoSwipe 36000, demoSwipe 36090] : List Swipe).map Swipe.ts ∧
    (burstAgg [demoSwipe 36000, demoSwipe 36090]).burst_end ∈
      ([demoSwipe 36000, demoSwipe 36090] : List Swipe).map Swipe.ts ∧
    (∀ x ∈ ([demoSwipe 36000, demoSwipe 36090] : List Swipe).head?,
      (burstAgg [demoSwipe 36000, demoSwipe 36090]).output_name = x.output_name ∧
        (burstAgg [demoSwipe 36000, demoSwipe 36090]).output_id = x.output_id)) := by
  have hl : ∀ x ∈ ([demoSwipe 21600] : List Swipe).getLast?,
      ∀ y ∈ ([demoSwipe 36000, demoSwipe 36090] : List Swipe).head?,
        (60 * ((2 : Nat) : Int)) < (y.ts : Int) - x.ts := by
    intro x hx y hy
    simp at hx hy
    subst hx
    subst hy
    decide
  have hr2 : ∀ x ∈ ([demoSwipe 36000, demoSwipe 36090] : List Swipe).getLast?,
      ∀ y ∈ ([demoSwipe 50400] : List Swipe).head?,
        (60 * ((2 : Nat) : Int)) < (y.ts : Int) - x.ts := by
    intro x hx y hy
    simp at hx hy
    subst hx
    subst hy
    decide
  have hsorted : List.Chain' (fun x y : Swipe => x.ts ≤ y.ts)
      ([demoSwipe 21600] ++ [demoSwipe 36000, demoSwipe 36090] ++ [demoSwipe 50400]) := by
    norm_num [List.chain'_cons, demoSwipe]
  have hchain : List.Chain' (fun x y : Swipe => (y.ts : Int) - x.ts ≤ 60 * ((2 : Nat) : Int))
      [demoSwipe 36000, demoSwipe 36090] := by
    norm_num [List.chain'_cons, demoSwipe]
  exact ⟨hsorted, by decide, hchain, hl, hr2,
    burst_maximal_run 2 [demoSwipe 21600] [demoSwipe 36000, demoSwipe 36090]
      [demoSwipe 50400] hsorted (by decide) hchain hl hr2⟩

theorem absorbRest_join (shifts : List (String × ShiftConfig)) (code : String)
    (cfg : ShiftConfig) (wend : Nat) (bs : List Burst) :
    (absorbRest shifts code cfg wend bs).1 ++ (absorbRest shifts code cfg wend bs).2 = bs := by
  simp [absorbRest_eq, List.takeWhile_append_dropWhile]

/-- Claim C9: after segmentation, every burst is either assigned to
exactly one shift instance or counted as an orphan, never both: the
bursts of all emitted instances together with the orphan list form a
permutation of the input burst list. -/
theorem burst_partition_invariant (shifts : List (String × ShiftConfig)) :
    ∀ (fuel : Nat) (bursts : List Burst) (insts : List ShiftInstance)
      (orphans : List Burst),
    segmentLoop shifts fuel bursts = some (insts, orphans) →
    (instanceBursts insts ++ orphans).Perm bursts := by
  intro fuel
  induction fuel with
  | zero =>
    intro bursts insts orphans h
    cases bursts with
    | nil =>
      simp only [segmentLoop, Option.some.injEq, Prod.mk.injEq] at h
      rw [← h.1, ← h.2]
      rfl
    | cons b bs => simp [segmentLoop] at h
  | succ f ih =>
    intro bursts insts orphans h
    cases bursts with
    | nil =>
      simp only [segmentLoop, Option.some.injEq, Prod.mk.injEq] at h
      rw [← h.1, ← h.2]
      rfl
    | cons b bs =>
      rw [segmentLoop] at h
      cases hm : matchShift shifts (tod b.burst_start) with
      | none =>
        rw [hm] at h
        cases hrec : segmentLoop shifts f bs with
        | none => rw [hrec] at h; exact absurd h (by simp)
        | some r =>
          obtain ⟨i2, o2⟩ := r
          rw [hrec] at h
          simp only [Option.some.injEq, Prod.mk.injEq] at h
          rw [← h.1, ← h.2]
          exact List.Perm.trans List.perm_middle ((ih bs i2 o2 hrec).cons b)
      | some pr =>
        obtain ⟨code, cfg⟩ := pr
        rw [hm] at h
        simp only [] at h
        by_cases hw : b.burst_start ≤ windowEnd code cfg (dateOf b.burst_start)
        · have hopen : openAbsorb shifts code cfg
              (windowEnd code cfg (dateOf b.burst_start)) b bs =
              (b :: (absorbRest shifts code cfg
                (windowEnd code cfg (dateOf b.burst_start)) bs).1,
               (absorbRest shifts code cfg
                (windowEnd code cfg (dateOf b.burst_start)) bs).2) := by
            simp [openAbsorb, hw]
          rw [hopen] at h
          simp only [] at h
          cases hrec : segmentLoop shifts f (absorbRest shifts code cfg
              (windowEnd code cfg (dateOf b.burst_start)) bs).2 with
          | none => rw [hrec] at h; exact absurd h (by simp)
          | some r =>
            obtain ⟨i2, o2⟩ := r
            rw [hrec] at h
            simp only [Option.some.injEq, Prod.mk.injEq] at h
            rw [← h.1, ← h.2]
            have e1 : instanceBursts (⟨code, dateOf b.burst_start,
                b :: (absorbRest shifts code cfg
                  (windowEnd code cfg (dateOf b.burst_start)) bs).1⟩ :: i2) ++ o2 =
                b :: ((absorbRest shifts code cfg
                  (windowEnd code cfg (dateOf b.burst_start)) bs).1 ++
                  (instanceBursts i2 ++ o2)) := by
              simp [instanceBursts]
            rw [e1]
            have h2 := List.Perm.append_left
              (absorbRest shifts code cfg
                (windowEnd code cfg (dateOf b.burst_start)) bs).1 (ih _ i2 o2 hrec)
            have e2 : b :: bs = b :: ((absorbRest shifts code cfg
                (windowEnd code cfg (dateOf b.burst_start)) bs).1 ++
                (absorbRest shifts code cfg
                (windowEnd code cfg (dateOf b.burst_start)) bs).2) := by
              rw [absorbRest_join]
            rw [e2]
            exact h2.cons b
        · have hopen : openAbsorb shifts code cfg
              (windowEnd code cfg (dateOf b.burst_start)) b bs = ([], b :: bs) := by
            simp [openAbsorb, hw]
          rw [hopen] at h
          simp only [] at h
          exact ih _ insts orphans h

/-- Claim C7: every instance the segmenter emits carries a nonempty burst
list headed by its opening check-in burst (whose time of day matches the
instance's shift code), the stored `shift_date` is that burst's calendar
date, and the emitted AttendanceRecord's Date field equals it no matter
how late the later absorbed bursts occur. -/
theorem record_date_attribution (shifts : List (String × ShiftConfig)) :
    ∀ (fuel : Nat) (bursts : List Burst) (insts : List ShiftInstance)
      (orphans : List Burst),
    segmentLoop shifts fuel bursts = some (insts, orphans) →
    ∀ inst ∈ insts, ∃ hd tl, inst.bursts = hd :: tl ∧
      inst.shift_date = dateOf hd.burst_start ∧
      (∃ cfg, matchShift shifts (tod hd.burst_start) = some (inst.shift_code, cfg)) ∧
      (∀ cfg0, (extractRecord cfg0 inst).date = dateOf hd.burst_start) := by
  intro fuel
  induction fuel with
  | zero =>
    intro bursts insts orphans h
    cases bursts with
    | nil =>
      simp only [segmentLoop, Option.some.injEq, Prod.mk.injEq] at h
      rw [← h.1]
      intro inst hmem
      cases hmem
    | cons b bs => simp [segmentLoop] at h
  | succ f ih =>
    intro bursts insts orphans h
    cases bursts with
    | nil =>
      simp only [segmentLoop, Option.some.injEq, Prod.mk.injEq] at h
      rw [← h.1]
      intro inst hmem
      cases hmem
    | cons b bs =>
      rw [segmentLoop] at h
      cases hm : matchShift shifts (tod b.burst_start) with
      | none =>
        rw [hm] at h
        cases hrec : segmentLoop shifts f bs with
        | none => rw [hrec] at h; exact absurd h (by simp)
        | some r =>
          obtain ⟨i2, o2⟩ := r
          rw [hrec] at h
          simp only [Option.some.injEq, Prod.mk.injEq] at h
          rw [← h.1]
          exact ih bs i2 o2 hrec
      | some pr =>
        obtain ⟨code, cfg⟩ := pr
        rw [hm] at h
        simp only [] at h
        by_cases hw : b.burst_start ≤ windowEnd code cfg (dateOf b.burst_start)
        · have hopen : openAbsorb shifts code cfg
              (windowEnd code cfg (dateOf b.burst_start)) b bs =
              (b :: (absorbRest shifts code cfg
                (windowEnd code cfg (dateOf b.burst_start)) bs).1,
               (absorbRest shifts code cfg
                (windowEnd code cfg (dateOf b.burst_start)) bs).2) := by
            simp [openAbsorb, hw]
          rw [hopen] at h
          simp only [] at h
          cases hrec : segmentLoop shifts f (absorbRest shifts code cfg
              (windowEnd code cfg (dateOf b.burst_start)) bs).2 with
          | none => rw [hrec] at h; exact absurd h (by simp)
          | some r =>
            obtain ⟨i2, o2⟩ := r
            rw [hrec] at h
            simp only [Option.some.injEq, Prod.mk.injEq] at h
            rw [← h.1]
            intro inst hmem
            rcases List.mem_cons.mp hmem with hi | hi
            · subst hi
              refine ⟨b, (absorbRest shifts code cfg
                (windowEnd code cfg (dateOf b.burst_start)) bs).1, rfl, rfl, ⟨cfg, hm⟩, ?_⟩
              intro cfg0
              rfl
            · exact ih _ i2 o2 hrec inst hi
        · have hopen : openAbsorb shifts code cfg
              (windowEnd code cfg (dateOf b.burst_start)) b bs = ([], b :: bs) := by
            simp [openAbsorb, hw]
          rw [hopen] at h
          simp only [] at h
          exact ih _ insts orphans h

theorem seg_terminates_aux (shifts : List (String × ShiftConfig)) :
    ∀ (fuel : Nat) (bursts : List Burst),
    bursts.length ≤ fuel → (∀ b ∈ bursts, safeBurst shifts b = true) →
    (segmentLoop shifts fuel bursts).isSome := by
  intro fuel
  induction fuel with
  | zero =>
    intro bursts hlen _
    have : bursts = [] := List.eq_nil_of_length_eq_zero (Nat.le_zero.mp hlen)
    subst this
    simp [segmentLoop]
  | succ f ih =>
    intro bursts hlen hsafe
    cases bursts with
    | nil => simp [segmentLoop]
    | cons b bs =>
      rw [segmentLoop]
      cases hm : matchShift shifts (tod b.burst_start) with
      | none =>
        have hrec := ih bs (Nat.le_of_succ_le_succ (by simpa using hlen))
          (fun x hx => hsafe x (List.mem_cons_of_mem b hx))
        obtain ⟨r, hr⟩ := Option.isSome_iff_exists.mp hrec
        rw [hr]
        obtain ⟨i2, o2⟩ := r
        simp
      | some pr =>
        obtain ⟨code, cfg⟩ := pr
        have hsb := hsafe b (List.mem_cons_self b bs)
        rw [safeBurst, hm] at hsb
        have hw : b.burst_start ≤ windowEnd code cfg (dateOf b.burst_start) := by
          simpa using hsb
        have hopen : openAbsorb shifts code cfg
            (windowEnd code cfg (dateOf b.burst_start)) b bs =
            (b :: (absorbRest shifts code cfg
              (windowEnd code cfg (dateOf b.burst_start)) bs).1,
             (absorbRest shifts code cfg
              (windowEnd code cfg (dateOf b.burst_start)) bs).2) := by
          simp [openAbsorb, hw]
        have hsub : (absorbRest shifts code cfg
            (windowEnd code cfg (dateOf b.burst_start)) bs).2.Sublist bs := by
          rw [absorbRest_eq]
          exact List.dropWhile_sublist _
        have hrec := ih (absorbRest shifts code cfg
            (windowEnd code cfg (dateOf b.burst_start)) bs).2
          (le_trans hsub.length_le (Nat.le_of_succ_le_succ (by simpa using hlen)))
          (fun x hx => hsafe x (List.mem_cons_of_mem b (hsub.mem hx)))
        obtain ⟨r, hr⟩ := Option.isSome_iff_exists.mp hrec
        obtain ⟨i2, o2⟩ := r
        simp only []
        rw [hopen]
        simp only []
        rw [hr]
        simp

/-- Claim C10: under the precondition that every burst matching some
shift's check-in window starts no later than that shift's activity-window
end, the segmentation loop terminates: fuel equal to the number of bursts
suffices because each outer iteration strictly advances the scan (the
opening burst is absorbed, a non-matching burst advances by one). -/
theorem segmentation_terminates (shifts : List (String × ShiftConfig))
    (bursts : List Burst)
    (hsafe : ∀ b ∈ bursts, safeBurst shifts b = true) :
    ∃ result, segmentLoop shifts bursts.length bursts = some result :=
  Option.isSome_iff_exists.mp
    (seg_terminates_aux shifts bursts.length bursts (le_refl _) hsafe)

/-- Witness for C10 on the night-shift scenario bursts. -/
theorem segmentation_terminates_witness :
    (∀ b ∈ nightBursts, safeBurst demoShifts b = true) ∧
    ∃ result, segmentLoop demoShifts nightBursts.length nightBursts = some result :=
  ⟨by decide, segmentation_terminates demoShifts nightBursts (by decide)⟩

/-- Witness for C9 on the night-shift scenario bursts. -/
theorem burst_partition_invariant_witness :
    segmentLoop demoShifts 4 nightBursts = some ([⟨"C", 0, nightBursts⟩], []) ∧
    (instanceBursts [⟨"C", 0, nightBursts⟩] ++ []).Perm nightBursts :=
  ⟨by decide,
   burst_partition_invariant demoShifts 4 nightBursts [⟨"C", 0, nightBursts⟩] []
     (by decide)⟩

/-- Witness for C7 on the night-shift scenario bursts: the single emitted
instance is dated day 0 (the check-in burst's date) although its last
burst lies on day 1. -/
theorem record_date_attribution_witness :
    segmentLoop demoShifts 4 nightBursts = some ([⟨"C", 0, nightBursts⟩], []) ∧
    ∀ inst ∈ [(⟨"C", 0, nightBursts⟩ : ShiftInstance)], ∃ hd tl,
      inst.bursts = hd :: tl ∧
      inst.shift_date = dateOf hd.burst_start ∧
      (∃ cfg, matchShift demoShifts (tod hd.burst_start) = some (inst.shift_code, cfg)) ∧
      (∀ cfg0, (extractRecord cfg0 inst).date = dateOf hd.burst_start) :=
  ⟨by decide,
   record_date_attribution demoShifts 4 nightBursts [⟨"C", 0, nightBursts⟩] []
     (by decide)⟩

theorem argmin_go_spec (f : Nat → Int) : ∀ (l : List Nat) (a m : Nat),
    l.foldl (fun best j => if f j < f best then j else best) a = m →
    (m = a ∧ ∀ j ∈ l, f a ≤ f j) ∨
    (∃ p q, l = p ++ m :: q ∧ f m < f a ∧ (∀ j ∈ p, f m < f j) ∧
      (∀ j ∈ q, f m ≤ f j)) := by
  intro l
  induction l with
  | nil =>
    intro a m h
    exact Or.inl ⟨h.symm, fun j hj => absurd hj (List.not_mem_nil j)⟩
  | cons j l ih =>
    intro a m h
    rw [List.foldl_cons] at h
    by_cases hj : f j < f a
    · rw [if_pos hj] at h
      rcases ih j m h with ⟨hm, hall⟩ | ⟨p, q, hl, hlt, hp, hq⟩
      · subst hm
        exact Or.inr ⟨[], l, by simp, hj,
          fun x hx => absurd hx (List.not_mem_nil x), hall⟩
      · refine Or.inr ⟨j :: p, q, by rw [hl, List.cons_append], lt_trans hlt hj, ?_, hq⟩
        intro x hx
        rcases List.mem_cons.mp hx with hx | hx
        · subst hx; exact hlt
        · exact hp x hx
    · rw [if_neg hj] at h
      rcases ih a m h with ⟨hm, hall⟩ | ⟨p, q, hl, hlt, hp, hq⟩
      · refine Or.inl ⟨hm, ?_⟩
        intro x hx
        rcases List.mem_cons.mp hx with hx | hx
        · subst hx; exact not_lt.mp hj
        · exact hall x hx
      · refine Or.inr ⟨j :: p, q, by rw [hl, List.cons_append], hlt, ?_, hq⟩
        intro x hx
        rcases List.mem_cons.mp hx with hx | hx
        · subst hx; exact lt_of_lt_of_le hlt (not_lt.mp hj)
        · exact hp x hx

theorem argminFirst_isFirstMin (f : Nat → Int) (l : List Nat) (i : Nat)
    (h : argminFirst f l = some i) : IsFirstMin f l i := by
  cases l with
  | nil => exact absurd h (by simp [argminFirst])
  | cons j is =>
    rw [argminFirst, Option.some.injEq] at h
    rcases argmin_go_spec f is j i h with ⟨hm, hall⟩ | ⟨p, q, hl, hlt, hp, hq⟩
    · subst hm
      exact ⟨[], is, rfl, fun x hx => absurd hx (List.not_mem_nil x), hall⟩
    · refine ⟨j :: p, q, by rw [hl, List.cons_append], ?_, hq⟩
      intro x hx
      rcases List.mem_cons.mp hx with hx | hx
      · subst hx; exact hlt
      · exact hp x hx

/-- Claim C1: whenever the candidate pool (bursts whose start or end time
of day lies in the break-search window, in chronological order) has at
least one qualifying gap, Break-Out is the `burst_end` of the qualifying
gap whose preceding burst's end time of day is closest in seconds to
`break_out_checkpoint`, and Break-In is the `burst_start` following the
qualifying gap whose next burst's start is closest to the break-in
on-time cutoff; the two selections are independent, and on equal
distances the gap encountered first in scan order wins (`IsFirstMin`). -/
theorem break_gap_independent_selection (cfg : ShiftConfig) (group : List Burst)
    (hsort : sortedByStart group = true)
    (hq : qualIndices cfg.minimum_break_gap_minutes (breakCands cfg group) ≠ []) :
    ∃ bo bi,
      IsFirstMin (distToCheckpoint cfg (breakCands cfg group))
        (qualIndices cfg.minimum_break_gap_minutes (breakCands cfg group)) bo ∧
      IsFirstMin (distToCutoff cfg (breakCands cfg group))
        (qualIndices cfg.minimum_break_gap_minutes (breakCands cfg group)) bi ∧
      detect_breaks cfg group =
        (some ((breakCands cfg group).getD bo default).burst_end,
         some ((breakCands cfg group).getD (bi + 1) default).burst_start,
         some (tod ((breakCands cfg group).getD (bi + 1) default).burst_start)) := by
  have hne : (breakCands cfg group).isEmpty = false := by
    cases hc : breakCands cfg group with
    | nil =>
      exfalso
      apply hq
      rw [qualIndices, hc]
      rfl
    | cons x xs => rfl
  have hne2 : ¬ ((breakCands cfg group).isEmpty = true) := by
    rw [hne]
    exact Bool.false_ne_true
  cases hQ : qualIndices cfg.minimum_break_gap_minutes (breakCands cfg group) with
  | nil => exact absurd hQ hq
  | cons q0 qt =>
    obtain ⟨bo, hbo⟩ : ∃ x, argminFirst (distToCheckpoint cfg (breakCands cfg group))
        (q0 :: qt) = some x := by
      rw [argminFirst]
      exact ⟨_, rfl⟩
    obtain ⟨bi, hbi⟩ : ∃ x, argminFirst (distToCutoff cfg (breakCands cfg group))
        (q0 :: qt) = some x := by
      rw [argminFirst]
      exact ⟨_, rfl⟩
    refine ⟨bo, bi, argminFirst_isFirstMin _ _ _ hbo, argminFirst_isFirstMin _ _ _ hbi, ?_⟩
    unfold detect_breaks
    simp only []
    rw [if_neg hne2, hQ, hbo, hbi]


theorem maxEnd_spec (l : List Burst) (hl : l ≠ []) :
    maxEnd l ∈ l.map Burst.burst_end ∧ ∀ b ∈ l, b.burst_end ≤ maxEnd l := by
  have he : maxEnd l = (l.map Burst.burst_end).foldl max 0 := by
    rw [maxEnd, List.foldl_map]
  have hbound : ∀ b ∈ l, b.burst_end ≤ maxEnd l := by
    intro b hb
    rw [he]
    exact foldl_max_mem_le _ 0 b.burst_end (List.mem_map_of_mem Burst.burst_end hb)
  refine ⟨?_, hbound⟩
  rcases foldl_max_eq_or_mem (l.map Burst.burst_end) 0 with h0 | hmem
  · obtain ⟨c, t, rfl⟩ := List.exists_cons_of_ne_nil hl
    have hc : c.burst_end ≤ maxEnd (c :: t) := hbound c (List.mem_cons_self c t)
    rw [he] at hc ⊢
    rw [h0] at hc ⊢
    have : c.burst_end = 0 := Nat.le_zero.mp hc
    rw [← this]
    exact List.mem_map_of_mem Burst.burst_end (List.mem_cons_self c t)
  · rw [he]
    exact hmem

theorem minStart_spec (l : List Burst) (hl : l ≠ []) :
    minStart l ∈ l.map Burst.burst_start ∧ ∀ b ∈ l, minStart l ≤ b.burst_start := by
  obtain ⟨b, bs, rfl⟩ := List.exists_cons_of_ne_nil hl
  have he : minStart (b :: bs) = (bs.map Burst.burst_start).foldl min b.burst_start := by
    rw [minStart, List.foldl_map]
  constructor
  · rw [he]
    rcases foldl_min_eq_or_mem (bs.map Burst.burst_start) b.burst_start with h0 | hmem
    · rw [h0, List.map_cons]
      exact List.mem_cons_self _ _
    · rw [List.map_cons]
      exact List.mem_cons_of_mem _ hmem
  · intro x hx
    rw [he]
    rcases List.mem_cons.mp hx with hx | hx
    · subst hx
      exact foldl_min_le_init _ _
    · exact foldl_min_le_mem _ _ x.burst_start (List.mem_map_of_mem Burst.burst_start hx)

/-- Claim C3 (amended): when no gap qualifies, the fallback splits the
candidate pool into a before-or-at-midpoint part (burst-end time of day ≤
midpoint) and a strictly-after part (burst-start time of day > midpoint);
a burst straddling the midpoint belongs to neither part, so the two parts
need not partition the pool.  If both parts are nonempty, Break-Out is
the maximum `burst_end` of the before part and Break-In the minimum
`burst_start` of the after part; an empty candidate pool yields two
blanks. -/
theorem midpoint_fallback_amended (cfg : ShiftConfig) (group : List Burst) :
    (breakCands cfg group = [] → detect_breaks cfg group = (none, none, none)) ∧
    (qualIndices cfg.minimum_break_gap_minutes (breakCands cfg group) = [] →
     beforeMid cfg (breakCands cfg group) ≠ [] →
     afterMid cfg (breakCands cfg group) ≠ [] →
     detect_breaks cfg group =
       (some (maxEnd (beforeMid cfg (breakCands cfg group))),
        some (minStart (afterMid cfg (breakCands cfg group))),
        some (tod (minStart (afterMid cfg (breakCands cfg group)))))) ∧
    (beforeMid cfg (breakCands cfg group) ≠ [] →
      maxEnd (beforeMid cfg (breakCands cfg group)) ∈
        (beforeMid cfg (breakCands cfg group)).map Burst.burst_end ∧
      ∀ b ∈ beforeMid cfg (breakCands cfg group),
        b.burst_end ≤ maxEnd (beforeMid cfg (breakCands cfg group))) ∧
    (afterMid cfg (breakCands cfg group) ≠ [] →
      minStart (afterMid cfg (breakCands cfg group)) ∈
        (afterMid cfg (breakCands cfg group)).map Burst.burst_start ∧
      ∀ b ∈ afterMid cfg (breakCands cfg group),
        minStart (afterMid cfg (breakCands cfg group)) ≤ b.burst_start) := by
  refine ⟨?_, ?_, maxEnd_spec _, minStart_spec _⟩
  · intro hc
    unfold detect_breaks
    simp only []
    rw [hc]
    rfl
  · intro hQ hbne hane
    have hcne : (breakCands cfg group).isEmpty = false := by
      cases hc : breakCands cfg group with
      | nil =>
        exfalso
        apply hbne
        rw [hc]
        rfl
      | cons x xs => rfl
    unfold detect_breaks
    simp only []
    rw [if_neg (by rw [hcne]; exact Bool.false_ne_true), hQ]
    simp only [argminFirst]
    unfold breakFallback
    simp only []
    obtain ⟨x, xs, hbx⟩ := List.exists_cons_of_ne_nil hbne
    obtain ⟨y, ys, hay⟩ := List.exists_cons_of_ne_nil hane
    rw [hbx, hay]
    rfl

/-- Witness for C1: the scenario bursts 06:00, 09:55, 10:05, 10:15,
10:25, 14:00 under the morning shift (Break-Out 09:55 on a distance tie
decided by scan order, Break-In 10:25, from different gaps). -/
theorem break_gap_independent_selection_witness :
    sortedByStart demoGroup = true ∧
    qualIndices shiftA.minimum_break_gap_minutes (breakCands shiftA demoGroup) ≠ [] ∧
    ∃ bo bi,
      IsFirstMin (distToCheckpoint shiftA (breakCands shiftA demoGroup))
        (qualIndices shiftA.minimum_break_gap_minutes (breakCands shiftA demoGroup)) bo ∧
      IsFirstMin (distToCutoff shiftA (breakCands shiftA demoGroup))
        (qualIndices shiftA.minimum_break_gap_minutes (breakCands shiftA demoGroup)) bi ∧
      detect_breaks shiftA demoGroup =
        (some ((breakCands shiftA demoGroup).getD bo default).burst_end,
         some ((breakCands shiftA demoGroup).getD (bi + 1) default).burst_start,
         some (tod ((breakCands shiftA demoGroup).getD (bi + 1) default).burst_start)) :=
  ⟨by decide, by decide,
   break_gap_independent_selection shiftA demoGroup (by decide) (by decide)⟩

/-- Counterexample to claim C3 as stated: the candidate burst spanning
10:00-10:20 straddles shift A's 10:15 midpoint, so it belongs to neither
the before-or-at part nor the strictly-after part — the two parts do not
partition the candidate pool. -/
theorem midpoint_partition_cex :
    straddleBurst ∈ breakCands shiftA [straddleBurst] ∧
    straddleBurst ∉ beforeMid shiftA (breakCands shiftA [straddleBurst]) ∧
    straddleBurst ∉ afterMid shiftA (breakCands shiftA [straddleBurst]) := by
  refine ⟨by decide, by decide, by decide⟩

/-- Witness for C3 (amended) on two bursts 10:13:00-10:14:30 and
10:16:00-10:17:00: their 90-second gap does not qualify, so the fallback
reports the before part's max end 10:14:30 and the after part's min
start 10:16:00. -/
theorem midpoint_fallback_amended_witness :
    (qualIndices shiftA.minimum_break_gap_minutes (breakCands shiftA fallbackGroup) = [] ∧
     beforeMid shiftA (breakCands shiftA fallbackGroup) ≠ [] ∧
     afterMid shiftA (breakCands shiftA fallbackGroup) ≠ []) ∧
    detect_breaks shiftA fallbackGroup =
      (some (maxEnd (beforeMid shiftA (breakCands shiftA fallbackGroup))),
       some (minStart (afterMid shiftA (breakCands shiftA fallbackGroup))),
       some (tod (minStart (afterMid shiftA (breakCands shiftA fallbackGroup))))) :=
  ⟨⟨by decide, by decide, by decide⟩,
   (midpoint_fallback_amended shiftA fallbackGroup).2.1 (by decide) (by decide) (by decide)⟩

end Attend
